import Mathlib

/-
Verification of the maxmindMMDB output plugin (src/plugin/maxmind/country_mmdb_out.go).

Go strings are modelled as lists of characters (`Str`); the labels handled by
the plugin are ASCII country codes, for which Lean's `Char.toUpper`/`Char.toLower`
agree with Go's `strings.ToUpper`/`strings.ToLower`, and `Char.isWhitespace`
agrees with Go's `unicode.IsSpace` used by `strings.TrimSpace`.

The external collaborators (lib.Entry / lib.Container from the v2fly geoip
library, and the mmdbwriter library) are not part of this repository's sources;
where a claim depends on them they are modelled from the spec, as marked on the
corresponding definitions.
-/

namespace GeoIP

/-- Go strings, modelled as lists of characters. -/
abbrev Str := List Char

/-- Embedding of Go `strings.TrimSpace`: drop whitespace from both ends. -/
def trimSpace (s : Str) : Str :=
  ((s.dropWhile Char.isWhitespace).reverse.dropWhile Char.isWhitespace).reverse

/-- Embedding of Go `strings.ToUpper` (ASCII range, which covers labels). -/
def toUpperS (s : Str) : Str := s.map Char.toUpper

/-- Embedding of Go `strings.ToLower` (ASCII range, which covers labels). -/
def toLowerS (s : Str) : Str := s.map Char.toLower

/-- The normalization applied to want/exclude entries in `filterAndSortList`:
`strings.ToUpper(strings.TrimSpace(s))`. -/
def normalize (s : Str) : Str := toUpperS (trimSpace s)

/-- Lexicographic (bytewise) comparison of Go strings, as used by
`slices.Sort` on `[]string`. -/
def lexLe : Str → Str → Bool
  | [], _ => true
  | _ :: _, [] => false
  | a :: as, b :: bs => if a < b then true else if b < a then false else lexLe as bs

/-- The ordering relation `lexLe` as a proposition. -/
abbrev strLe (a b : Str) : Prop := lexLe a b = true

theorem lexLe_total : ∀ a b : Str, strLe a b ∨ strLe b a := by
  intro a
  induction a with
  | nil => intro b; left; rfl
  | cons x as ih =>
    intro b
    cases b with
    | nil => right; rfl
    | cons y bs =>
      rcases lt_trichotomy x y with h | h | h
      · left; simp [strLe, lexLe, h]
      · subst h
        rcases ih bs with h' | h'
        · left; simp [strLe, lexLe, lt_irrefl, h']
        · right; simp [strLe, lexLe, lt_irrefl, h']
      · right; simp [strLe, lexLe, h, asymm h]

theorem lexLe_trans : ∀ a b c : Str, strLe a b → strLe b c → strLe a c := by
  intro a
  induction a with
  | nil => intro b c _ _; rfl
  | cons x as ih =>
    intro b c hab hbc
    cases b with
    | nil => simp [strLe, lexLe] at hab
    | cons y bs =>
      cases c with
      | nil => simp [strLe, lexLe] at hbc
      | cons z cs =>
        simp only [strLe, lexLe] at hab hbc ⊢
        by_cases hxy : x < y
        · by_cases hyz : y < z
          · simp [lt_trans hxy hyz]
          · by_cases hzy : z < y
            · simp [hxy, hyz, hzy] at hbc
            · have : y = z := le_antisymm (le_of_not_lt hzy) (le_of_not_lt hyz)
              subst this
              simp [hxy]
        · by_cases hyx : y < x
          · simp [hxy, hyx] at hab
          · have hxe : x = y := le_antisymm (le_of_not_lt hyx) (le_of_not_lt hxy)
            subst hxe
            simp only [lt_irrefl, if_false] at hab
            by_cases hyz : x < z
            · simp [hyz]
            · by_cases hzy : z < x
              · simp [hyz, hzy] at hbc
              · have : x = z := le_antisymm (le_of_not_lt hzy) (le_of_not_lt hyz)
                subst this
                simp only [lt_irrefl, if_false] at hbc ⊢
                exact ih bs cs hab hbc

instance : IsTotal Str strLe := ⟨lexLe_total⟩

instance : IsTrans Str strLe := ⟨lexLe_trans⟩

/-- Embedding of Go `slices.Sort` on `[]string`: a comparison sort by the
lexicographic order (insertion sort; `slices.Sort` is an unstable comparison
sort, and on a total order any two comparison sorts agree up to permutation
of equal elements, i.e. they agree on lists of strings). -/
def sortStrings (l : List Str) : List Str := List.insertionSort strLe l

theorem sortStrings_sorted (l : List Str) : List.Sorted strLe (sortStrings l) :=
  List.sorted_insertionSort strLe l

theorem sortStrings_perm (l : List Str) : (sortStrings l).Perm l :=
  List.perm_insertionSort strLe l

/-- Embedding of `lib.IPType` (the `onlyIPType` configuration value):
`""` (both families), `"ipv4"`, `"ipv6"`. -/
inductive IPType where
  | any : IPType
  | ipv4 : IPType
  | ipv6 : IPType
deriving DecidableEq

/-- Address family of a CIDR value. -/
inductive Fam where
  | v4 : Fam
  | v6 : Fam
deriving DecidableEq

/-- A CIDR value (`netip.Prefix`): an address family, the address bits and
the mask length. The claims below depend only on the family tag. -/
structure Pfx where
  fam : Fam
  addr : Nat
  len : Nat
deriving DecidableEq

/-- Embedding of `mmdbtype` values: only strings and maps are used by the
plugin (`mmdbtype.String`, `mmdbtype.Map`). -/
inductive MMDBType where
  | str : Str → MMDBType
  | map : List (Str × MMDBType) → MMDBType

/-- Modelled from the spec: the external Prefix Source entry (`lib.Entry`),
which for a given label exposes its IPv4 and IPv6 prefix sets via
`GetIPv4Set`/`GetIPv6Set`, each returning either the set or an error. -/
structure Entry where
  name : Str
  ipv4Set : Except Str (List Pfx)
  ipv6Set : Except Str (List Pfx)

/-- Modelled from the spec: the external `lib.Container`, an ordered
collection of named entries iterated by `Loop()`. -/
abbrev Container := List Entry

/-- Modelled from the spec: `container.GetEntry(name)` — look the entry up by
name, reporting whether it was found. -/
def getEntry (c : Container) (n : Str) : Option Entry :=
  c.find? (fun e => e.name == n)

/-- The `maxmindMMDBOut` converter configuration (fields of the Go struct
that the output path reads). -/
structure Config where
  OutputName : Str
  OutputDir : Str
  Want : List Str
  Exclude : List Str
  OneFilePerList : Bool
  OnlyIPType : IPType

/-- The normalized exclude set built by `filterAndSortList`: each exclude
entry trimmed and uppercased, empty results dropped (`excludeMap`). -/
def excludeSet (m : Config) : List Str :=
  (m.Exclude.map normalize).filter (fun s => decide (s ≠ []))

/-- The normalized want list built by `filterAndSortList`: each want entry
trimmed and uppercased, kept when non-empty and not excluded (`wantList`). -/
def wantListN (m : Config) : List Str :=
  (m.Want.map normalize).filter (fun s => decide (s ≠ [] ∧ s ∉ excludeSet m))

/-- Embedding of `filterAndSortList`: if the normalized want list (minus
excludes) is non-empty, sort and return it; otherwise return the names of all
container entries that are not excluded, sorted. -/
def filterAndSortList (m : Config) (c : Container) : List Str :=
  if wantListN m = [] then
    sortStrings ((c.map Entry.name).filter (fun n => decide (n ∉ excludeSet m)))
  else
    sortStrings (wantListN m)

/-- Modelled from the spec: the writer state of the external `mmdbwriter.Tree`
— the options it was created with, plus the sequence of (prefix, record)
insertions accepted so far. Serialization details are out of scope. -/
structure Tree where
  ipVersion : Nat
  databaseType : Str
  recordSize : Nat
  includeReservedNetworks : Bool
  entries : List (Pfx × MMDBType)

/-- Embedding of `createWriter`: IP version 6 (dual-stack) by default, 4 when
`onlyIPType` is `ipv4`; fixed options `DatabaseType "GeoIP2-Country"`,
`RecordSize 28`, `IncludeReservedNetworks true`. `mmdbwriter.New` is called
with constant valid options, so its error path is not modelled. -/
def createWriter (m : Config) : Tree where
  ipVersion := if m.OnlyIPType = IPType.ipv4 then 4 else 6
  databaseType := "GeoIP2-Country".data
  recordSize := 28
  includeReservedNetworks := true
  entries := []

/-- Modelled from the spec: `writer.Insert` records the (prefix, record) pair;
per §7, a prefix that cannot be represented in the configured address width
(an IPv6 range inserted into a 4-byte tree) is an EncodingError. -/
def treeInsert (t : Tree) (p : Pfx) (r : MMDBType) : Except Str Tree :=
  if t.ipVersion = 4 ∧ p.fam = Fam.v6 then
    Except.error "prefix does not fit the address width of the tree".data
  else
    Except.ok { t with entries := t.entries ++ [(p, r)] }

/-- The prefixes of an accessor result in the dual-stack branch of
`addEntryToWriter`: the set on success, nothing when the accessor errored
(the `if err == nil` pattern). -/
def okElems (x : Except Str (List Pfx)) : List Pfx :=
  match x with
  | Except.ok l => l
  | Except.error _ => []

/-- The prefix-selection switch of `addEntryToWriter`: with `onlyIPType`
set, the matching accessor's result (errors propagated); with it unset, the
concatenation of both accessors' successful results (errors ignored). -/
def selectPrefixes (t : IPType) (e : Entry) : Except Str (List Pfx) :=
  match t with
  | IPType.ipv4 => e.ipv4Set
  | IPType.ipv6 => e.ipv6Set
  | IPType.any => Except.ok (okElems e.ipv4Set ++ okElems e.ipv6Set)

/-- The country record built by `addEntryToWriter` for a label: the map
`{"country": {"iso_code": label}, "registered_country": {"iso_code": label}}`. -/
def countryRecord (cc : Str) : MMDBType :=
  MMDBType.map
    [("country".data, MMDBType.map [("iso_code".data, MMDBType.str cc)]),
     ("registered_country".data, MMDBType.map [("iso_code".data, MMDBType.str cc)])]

/-- The insertion loop of `addEntryToWriter`: insert each prefix with the
record, stopping at the first error. -/
def insertAll (t : Tree) (r : MMDBType) : List Pfx → Except Str Tree
  | [] => Except.ok t
  | p :: ps =>
    match treeInsert t p r with
    | Except.error e => Except.error e
    | Except.ok t' => insertAll t' r ps

/-- Embedding of `addEntryToWriter`: select the prefixes for the configured
IP scope, then insert them all with the label's country record. -/
def addEntryToWriter (m : Config) (w : Tree) (e : Entry) (cc : Str) : Except Str Tree :=
  match selectPrefixes m.OnlyIPType e with
  | Except.error err => Except.error err
  | Except.ok ps => insertAll w (countryRecord cc) ps

/-- File-system effects performed by the output functions. -/
inductive FileOp where
  | create : Str → FileOp
  | write : Str → FileOp

/-- Embedding of `filepath.Join(dir, name)` on the clean paths the plugin
builds. -/
def pathJoin (d n : Str) : Str := d ++ ('/' :: n)

/-- The error message wrapping of the output loops:
`fmt.Errorf("failed to add entry %s: %w", name, err)`. -/
def wrapAddError (name err : Str) : Str :=
  "failed to add entry ".data ++ name ++ ": ".data ++ err

/-- The output path of a label's file in per-label mode:
`filepath.Join(m.OutputDir, strings.ToLower(name) + ".mmdb")`. -/
def labelPath (m : Config) (name : Str) : Str :=
  pathJoin m.OutputDir (toLowerS name ++ ".mmdb".data)

/-- Embedding of `outputOneFilePerList`: for each selected label, skip it if
absent from the container (log only), otherwise build a fresh writer for it
and abort on a build error; only then create and write its file. `os.Create`
and `WriteTo` are modelled as succeeding (file I/O cannot fail in the model);
the returned list records the file operations performed. -/
def outputOneFilePerList (m : Config) (c : Container) : List Str → Except Str Unit × List FileOp
  | [] => (Except.ok (), [])
  | name :: rest =>
    match getEntry c name with
    | none => outputOneFilePerList m c rest
    | some e =>
      match addEntryToWriter m (createWriter m) e name with
      | Except.error err => (Except.error (wrapAddError name err), [])
      | Except.ok _ =>
        let r := outputOneFilePerList m c rest
        (r.1, FileOp.create (labelPath m name) :: FileOp.write (labelPath m name) :: r.2)

/-- The entry loop of `outputSingleFile`: add every selected label that is
present in the container to the single shared writer, skipping absent labels
and aborting on a build error. -/
def buildSingle (m : Config) (c : Container) : List Str → Tree → Except Str Tree
  | [], w => Except.ok w
  | name :: rest, w =>
    match getEntry c name with
    | none => buildSingle m c rest w
    | some e =>
      match addEntryToWriter m w e name with
      | Except.error err => Except.error (wrapAddError name err)
      | Except.ok w' => buildSingle m c rest w'

/-- Embedding of `outputSingleFile`: build one writer over all selected
labels, then create and write the single output file. -/
def outputSingleFile (m : Config) (c : Container) (list : List Str) : Except Str Unit × List FileOp :=
  match buildSingle m c list (createWriter m) with
  | Except.error e => (Except.error e, [])
  | Except.ok _ =>
    (Except.ok (),
     [FileOp.create (pathJoin m.OutputDir m.OutputName),
      FileOp.write (pathJoin m.OutputDir m.OutputName)])

/-- Embedding of `Output`: create the output directory (modelled as
succeeding), filter and sort the label list, then dispatch on the mode. -/
def Output (m : Config) (c : Container) : Except Str Unit × List FileOp :=
  if m.OneFilePerList then outputOneFilePerList m c (filterAndSortList m c)
  else outputSingleFile m c (filterAndSortList m c)

/-- Modelled from the spec: the binary address trie of §4.3 (the repository
delegates trie construction to the external mmdbwriter library, which is not
under src/). A node is empty (no coverage), a leaf holding a record, or an
internal node with a zero-child and a one-child. -/
inductive Trie (α : Type) where
  | empty : Trie α
  | leaf : α → Trie α
  | node : Trie α → Trie α → Trie α

/-- Modelled from the spec (§4.3): insertion walks the prefix's bits from the
most significant bit, descending into the matching child and creating
internal nodes as needed; when descending through an existing leaf, the leaf
is split (both children start as copies of it); when the prefix's bits are
exhausted, the remaining subtree is collapsed to a single leaf holding the
record (later insertions overwrite the overlapped region). -/
def trieInsert {α : Type} : Trie α → List Bool → α → Trie α
  | _, [], r => Trie.leaf r
  | Trie.node l t, false :: bs, r => Trie.node (trieInsert l bs r) t
  | Trie.node l t, true :: bs, r => Trie.node l (trieInsert t bs r)
  | Trie.leaf x, false :: bs, r => Trie.node (trieInsert (Trie.leaf x) bs r) (Trie.leaf x)
  | Trie.leaf x, true :: bs, r => Trie.node (Trie.leaf x) (trieInsert (Trie.leaf x) bs r)
  | Trie.empty, false :: bs, r => Trie.node (trieInsert Trie.empty bs r) Trie.empty
  | Trie.empty, true :: bs, r => Trie.node Trie.empty (trieInsert Trie.empty bs r)

/-- Modelled from the spec (§4.3): lookup walks the address bits from the
most significant bit and returns the record of the first leaf reached;
addresses not covered by any inserted prefix report no match. -/
def trieLookup {α : Type} : Trie α → List Bool → Option α
  | Trie.empty, _ => none
  | Trie.leaf x, _ => some x
  | Trie.node _ _, [] => none
  | Trie.node l _, false :: bs => trieLookup l bs
  | Trie.node _ t, true :: bs => trieLookup t bs

/-- The most significant `w` bits of `n`, most significant first — the
bit-path of a CIDR range `n/w` taken at width `w`. -/
def toBits (w n : Nat) : List Bool :=
  (List.range w).map (fun i => n.testBit (w - 1 - i))

theorem trieLookup_insert_inside {α : Type} (r : α) :
    ∀ (p : List Bool) (t : Trie α) (rest : List Bool),
      trieLookup (trieInsert t p r) (p ++ rest) = some r := by
  intro p
  induction p with
  | nil => intro t rest; cases t <;> rfl
  | cons b bs ih =>
    intro t rest
    cases t <;> cases b <;> simp only [trieInsert, List.cons_append, trieLookup] <;> exact ih _ rest

theorem trieLookup_insert_outside {α : Type} (r : α) :
    ∀ (p a : List Bool) (t : Trie α),
      p.length ≤ a.length → a.take p.length ≠ p →
      trieLookup (trieInsert t p r) a = trieLookup t a := by
  intro p
  induction p with
  | nil => intro a t _ hne; simp at hne
  | cons b bs ih =>
    intro a t hlen hne
    cases a with
    | nil => simp at hlen
    | cons x xs =>
      simp only [List.length_cons, Nat.succ_le_succ_iff] at hlen
      by_cases hxb : x = b
      · subst hxb
        have hne' : xs.take bs.length ≠ bs := by
          intro h
          exact hne (by simp [List.take, h])
        cases t <;> cases x <;>
          simp only [trieInsert, trieLookup] <;>
          rw [ih xs _ hlen hne'] <;> rfl
      · cases t <;> cases b <;> cases x <;> first
          | exact absurd rfl hxb
          | rfl

/- ------------------------------------------------------------------ -/
/- Shared helper lemmas                                                -/
/- ------------------------------------------------------------------ -/

theorem filterAndSortList_sorted (m : Config) (c : Container) :
    List.Sorted strLe (filterAndSortList m c) := by
  unfold filterAndSortList
  split <;> exact sortStrings_sorted _

theorem filterAndSortList_perm (m : Config) (c : Container) :
    (filterAndSortList m c).Perm
      (if wantListN m = [] then
        (c.map Entry.name).filter (fun n => decide (n ∉ excludeSet m))
       else wantListN m) := by
  unfold filterAndSortList
  by_cases h : wantListN m = []
  · rw [if_pos h, if_pos h]; exact sortStrings_perm _
  · rw [if_neg h, if_neg h]; exact sortStrings_perm _

theorem insertAll_mem (r : MMDBType) :
    ∀ (ps : List Pfx) (w w' : Tree), insertAll w r ps = Except.ok w' →
      ∀ pr, pr ∈ w'.entries → pr ∈ w.entries ∨ (pr.1 ∈ ps ∧ pr.2 = r) := by
  intro ps
  induction ps with
  | nil =>
    intro w w' h pr hpr
    unfold insertAll at h
    cases h
    exact Or.inl hpr
  | cons p ps ih =>
    intro w w' h pr hpr
    unfold insertAll treeInsert at h
    by_cases hc : w.ipVersion = 4 ∧ p.fam = Fam.v6
    · rw [if_pos hc] at h
      cases h
    · rw [if_neg hc] at h
      rcases ih _ _ h pr hpr with h1 | h2
      · rcases List.mem_append.1 h1 with h1 | h1
        · exact Or.inl h1
        · simp only [List.mem_singleton] at h1
          subst h1
          exact Or.inr ⟨List.mem_cons_self _ _, rfl⟩
      · exact Or.inr ⟨List.mem_cons_of_mem _ h2.1, h2.2⟩

/- ------------------------------------------------------------------ -/
/- Concrete fixtures used by counterexamples and witnesses             -/
/- ------------------------------------------------------------------ -/

/-- An entry with the given name and empty (successful) prefix sets. -/
def mkEntry (n : Str) : Entry where
  name := n
  ipv4Set := Except.ok []
  ipv6Set := Except.ok []

/-- A baseline configuration: aggregate mode, both families, defaults. -/
def cfgBase : Config where
  OutputName := "Country.mmdb".data
  OutputDir := "out".data
  Want := []
  Exclude := []
  OneFilePerList := false
  OnlyIPType := IPType.any

/- ------------------------------------------------------------------ -/
/- C2                                                                  -/
/- ------------------------------------------------------------------ -/

/-- Configuration whose want-list is fully cancelled by the exclude-list. -/
def cfgC2 : Config where
  OutputName := "Country.mmdb".data
  OutputDir := "out".data
  Want := ["CN".data]
  Exclude := ["CN".data]
  OneFilePerList := false
  OnlyIPType := IPType.any

/-- Claim C2 counterexample: with want = ["CN"], exclude = ["CN"] — a
normalized want-list that is non-empty — the claim demands the result
`want − exclude = []`; the code instead falls back to the container branch
and returns ["JP"] on a container holding label "JP". -/
theorem c2_want_minus_exclude_counterexample :
    (cfgC2.Want.map normalize).filter (fun s => decide (s ≠ [])) = ["CN".data] ∧
    filterAndSortList cfgC2 [mkEntry "JP".data] = ["JP".data] ∧
    filterAndSortList cfgC2 [mkEntry "JP".data] ≠ [] := by
  refine ⟨by decide, by decide, by decide⟩

/-- Claim C2 (amended): after normalizing want entries (trim, uppercase,
drop empties) and removing excluded ones, if the remaining want-list is
non-empty the result is exactly that list sorted ascending (duplicates
preserved, not deduplicated); otherwise — including when a non-empty
want-list is entirely excluded — the result is every container label not in
the normalized exclude set, sorted ascending. Stated as: the result is
sorted, and is a permutation of the corresponding unsorted list. -/
theorem c2_filterAndSortList_characterization (m : Config) (c : Container) :
    List.Sorted strLe (filterAndSortList m c) ∧
    (filterAndSortList m c).Perm
      (if wantListN m = [] then
        (c.map Entry.name).filter (fun n => decide (n ∉ excludeSet m))
       else wantListN m) :=
  ⟨filterAndSortList_sorted m c, filterAndSortList_perm m c⟩

/- ------------------------------------------------------------------ -/
/- C8                                                                  -/
/- ------------------------------------------------------------------ -/

/-- Claim C8: the Selector is a pure function of its inputs (it is a Lean
function, and the embedding carries no state): two runs on the same inputs
give the same result, and the output is lexicographically sorted. -/
theorem c8_selector_deterministic_sorted (m : Config) (c : Container) :
    filterAndSortList m c = filterAndSortList m c ∧
    List.Sorted strLe (filterAndSortList m c) :=
  ⟨rfl, filterAndSortList_sorted m c⟩

/- ------------------------------------------------------------------ -/
/- C9                                                                  -/
/- ------------------------------------------------------------------ -/

/-- Claim C9: with an empty normalized want-list, container names are
compared raw (no trimming or uppercasing) against the normalized exclude
entries; a container name not literally equal to any normalized exclude
entry appears unchanged in the result. -/
theorem c9_raw_container_names (m : Config) (c : Container) (name : Str)
    (hW : (m.Want.map normalize).filter (fun s => decide (s ≠ [])) = [])
    (hMem : name ∈ c.map Entry.name)
    (hEx : name ∉ excludeSet m) :
    name ∈ filterAndSortList m c := by
  have hwl : wantListN m = [] := by
    rw [List.filter_eq_nil_iff] at hW
    unfold wantListN
    rw [List.filter_eq_nil_iff]
    intro s hs
    have h0 := hW s hs
    simp only [decide_eq_true_eq] at h0 ⊢
    intro hcon
    exact h0 hcon.1
  unfold filterAndSortList
  rw [if_pos hwl]
  rw [(sortStrings_perm _).mem_iff, List.mem_filter]
  exact ⟨hMem, by simpa using hEx⟩

/-- Configuration for the C9 witness: empty want-list, exclude entry whose
normalization is "US". -/
def cfgC9 : Config where
  OutputName := "Country.mmdb".data
  OutputDir := "out".data
  Want := []
  Exclude := [" us ".data]
  OneFilePerList := false
  OnlyIPType := IPType.any

theorem c9_raw_container_names_witness :
    ((cfgC9.Want.map normalize).filter (fun s => decide (s ≠ [])) = [] ∧
     "us".data ∈ ([mkEntry "us".data] : Container).map Entry.name ∧
     "us".data ∉ excludeSet cfgC9) ∧
    "us".data ∈ filterAndSortList cfgC9 [mkEntry "us".data] :=
  ⟨⟨rfl, by decide, by decide⟩,
   c9_raw_container_names cfgC9 [mkEntry "us".data] "us".data rfl (by decide) (by decide)⟩

/- ------------------------------------------------------------------ -/
/- C1                                                                  -/
/- ------------------------------------------------------------------ -/

/-- Per-label configuration wanting a label absent from the container. -/
def cfgC1 : Config where
  OutputName := "Country.mmdb".data
  OutputDir := "out".data
  Want := ["XX".data]
  Exclude := []
  OneFilePerList := true
  OnlyIPType := IPType.any

/-- Claim C1 counterexample: in Per-label mode, a selected label absent from
the container ("XX" on an empty container) does not abort the run — the loop
logs and skips it exactly as in Aggregate mode, and Output returns success. -/
theorem c1_perLabel_missing_not_fatal :
    cfgC1.OneFilePerList = true ∧
    filterAndSortList cfgC1 [] = ["XX".data] ∧
    getEntry [] "XX".data = none ∧
    Output cfgC1 [] = (Except.ok (), []) :=
  ⟨rfl, by decide, rfl, rfl⟩

/-- Claim C1 (amended): in BOTH modes a label absent from the Prefix Source
is logged and skipped — processing a missing label followed by the remaining
labels is identical to processing the remaining labels alone, in the
per-label loop and in the aggregate build loop alike — so Output returns
success for the remaining labels in both modes. -/
theorem c1_missing_label_skipped_both_modes (m : Config) (c : Container)
    (name : Str) (rest : List Str) (h : getEntry c name = none) :
    outputOneFilePerList m c (name :: rest) = outputOneFilePerList m c rest ∧
    ∀ w, buildSingle m c (name :: rest) w = buildSingle m c rest w := by
  constructor
  · simp [outputOneFilePerList, h]
  · intro w; simp [buildSingle, h]

theorem c1_missing_label_skipped_both_modes_witness :
    getEntry [] "XX".data = none ∧
    outputOneFilePerList cfgC1 [] ["XX".data] = outputOneFilePerList cfgC1 [] [] ∧
    buildSingle cfgC1 [] ["XX".data] (createWriter cfgC1) =
      buildSingle cfgC1 [] [] (createWriter cfgC1) :=
  ⟨rfl,
   (c1_missing_label_skipped_both_modes cfgC1 [] "XX".data [] rfl).1,
   (c1_missing_label_skipped_both_modes cfgC1 [] "XX".data [] rfl).2 (createWriter cfgC1)⟩

/- ------------------------------------------------------------------ -/
/- C4                                                                  -/
/- ------------------------------------------------------------------ -/

/-- An entry whose IPv4 accessor fails. -/
def entryC4 : Entry where
  name := "XX".data
  ipv4Set := Except.error "ipv4 accessor failed".data
  ipv6Set := Except.ok []

/-- Claim C4 counterexample: with onlyIPType unset (dual-stack), an error
returned by the IPv4 accessor is ignored, not propagated: `addEntryToWriter`
succeeds on an entry whose accessor errored. -/
theorem c4_dualstack_error_swallowed :
    entryC4.ipv4Set = Except.error "ipv4 accessor failed".data ∧
    selectPrefixes IPType.any entryC4 = Except.ok [] ∧
    addEntryToWriter cfgBase (createWriter cfgBase) entryC4 "XX".data =
      Except.ok (createWriter cfgBase) :=
  ⟨rfl, rfl, rfl⟩

/-- Claim C4 (amended): with onlyIPType = ipv4 (resp. ipv6) the matching
accessor's error is propagated to the caller; with onlyIPType unset
(dual-stack) accessor errors are silently ignored — prefix selection always
succeeds, the failing family simply contributing no prefixes. -/
theorem c4_accessor_error_propagation (m : Config) (e : Entry) (err : Str) :
    (m.OnlyIPType = IPType.ipv4 → e.ipv4Set = Except.error err →
      ∀ w cc, addEntryToWriter m w e cc = Except.error err) ∧
    (m.OnlyIPType = IPType.ipv6 → e.ipv6Set = Except.error err →
      ∀ w cc, addEntryToWriter m w e cc = Except.error err) ∧
    (m.OnlyIPType = IPType.any →
      selectPrefixes m.OnlyIPType e =
        Except.ok (okElems e.ipv4Set ++ okElems e.ipv6Set)) := by
  refine ⟨?_, ?_, ?_⟩
  · intro h1 h2 w cc
    simp [addEntryToWriter, selectPrefixes, h1, h2]
  · intro h1 h2 w cc
    simp [addEntryToWriter, selectPrefixes, h1, h2]
  · intro h1
    simp [selectPrefixes, h1]

/-- Configuration restricting to IPv4 only. -/
def cfgV4 : Config where
  OutputName := "Country.mmdb".data
  OutputDir := "out".data
  Want := []
  Exclude := []
  OneFilePerList := false
  OnlyIPType := IPType.ipv4

theorem c4_accessor_error_propagation_witness :
    cfgV4.OnlyIPType = IPType.ipv4 ∧
    entryC4.ipv4Set = Except.error "ipv4 accessor failed".data ∧
    addEntryToWriter cfgV4 (createWriter cfgV4) entryC4 "XX".data =
      Except.error "ipv4 accessor failed".data :=
  ⟨rfl, rfl,
   (c4_accessor_error_propagation cfgV4 entryC4 "ipv4 accessor failed".data).1
     rfl rfl (createWriter cfgV4) "XX".data⟩

/- ------------------------------------------------------------------ -/
/- C5                                                                  -/
/- ------------------------------------------------------------------ -/

/-- Claim C5: with onlyIPType = ipv4 no IPv6 prefix is inserted into the
writer (and symmetrically for ipv6): assuming the Prefix Source's
family-partition contract (every prefix of the IPv4 set is an IPv4 prefix),
every entry of the resulting tree either predates the call or carries the
selected family; moreover the opposite family's set is never consulted, so
its prefixes are excluded silently, never causing an error. -/
theorem c5_ip_scope_filtering (m : Config) (w : Tree) (e : Entry) (cc : Str) (w' : Tree) :
    (m.OnlyIPType = IPType.ipv4 →
      (∀ p ∈ okElems e.ipv4Set, p.fam = Fam.v4) →
      addEntryToWriter m w e cc = Except.ok w' →
      ∀ pr ∈ w'.entries, pr ∈ w.entries ∨ pr.1.fam = Fam.v4) ∧
    (m.OnlyIPType = IPType.ipv6 →
      (∀ p ∈ okElems e.ipv6Set, p.fam = Fam.v6) →
      addEntryToWriter m w e cc = Except.ok w' →
      ∀ pr ∈ w'.entries, pr ∈ w.entries ∨ pr.1.fam = Fam.v6) ∧
    (∀ x, selectPrefixes IPType.ipv4 { e with ipv6Set := x } =
      selectPrefixes IPType.ipv4 e) ∧
    (∀ x, selectPrefixes IPType.ipv6 { e with ipv4Set := x } =
      selectPrefixes IPType.ipv6 e) := by
  refine ⟨?_, ?_, fun x => rfl, fun x => rfl⟩
  · intro hm hfam hadd pr hpr
    unfold addEntryToWriter at hadd
    rw [hm] at hadd
    cases he : e.ipv4Set with
    | error err => rw [show selectPrefixes IPType.ipv4 e = e.ipv4Set from rfl, he] at hadd; cases hadd
    | ok ps =>
      rw [show selectPrefixes IPType.ipv4 e = e.ipv4Set from rfl, he] at hadd
      rcases insertAll_mem (countryRecord cc) ps w w' hadd pr hpr with h1 | h2
      · exact Or.inl h1
      · refine Or.inr (hfam pr.1 ?_)
        rw [show okElems e.ipv4Set = ps from by rw [he]; rfl]
        exact h2.1
  · intro hm hfam hadd pr hpr
    unfold addEntryToWriter at hadd
    rw [hm] at hadd
    cases he : e.ipv6Set with
    | error err => rw [show selectPrefixes IPType.ipv6 e = e.ipv6Set from rfl, he] at hadd; cases hadd
    | ok ps =>
      rw [show selectPrefixes IPType.ipv6 e = e.ipv6Set from rfl, he] at hadd
      rcases insertAll_mem (countryRecord cc) ps w w' hadd pr hpr with h1 | h2
      · exact Or.inl h1
      · refine Or.inr (hfam pr.1 ?_)
        rw [show okElems e.ipv6Set = ps from by rw [he]; rfl]
        exact h2.1

/-- An IPv4 prefix fixture (10.0.0.0/8). -/
def pfxV4 : Pfx where
  fam := Fam.v4
  addr := 167772160
  len := 8

/-- An IPv6 prefix fixture (2001:db8::/32). -/
def pfxV6 : Pfx where
  fam := Fam.v6
  addr := 42540766411282592856903984951653826560
  len := 32

/-- An entry supplying prefixes of both families. -/
def entryBoth : Entry where
  name := "XX".data
  ipv4Set := Except.ok [pfxV4]
  ipv6Set := Except.ok [pfxV6]

/-- The writer state after adding `entryBoth` under an IPv4-only scope. -/
def treeC5 : Tree :=
  { createWriter cfgV4 with entries := [(pfxV4, countryRecord "XX".data)] }

theorem c5_ip_scope_filtering_witness :
    cfgV4.OnlyIPType = IPType.ipv4 ∧
    addEntryToWriter cfgV4 (createWriter cfgV4) entryBoth "XX".data = Except.ok treeC5 ∧
    ((pfxV4, countryRecord "XX".data) ∈ (createWriter cfgV4).entries ∨
      (pfxV4, countryRecord "XX".data).1.fam = Fam.v4) :=
  ⟨rfl, rfl,
   (c5_ip_scope_filtering cfgV4 (createWriter cfgV4) entryBoth "XX".data treeC5).1
     rfl (by decide) rfl (pfxV4, countryRecord "XX".data) (List.Mem.head _)⟩

/- ------------------------------------------------------------------ -/
/- C6                                                                  -/
/- ------------------------------------------------------------------ -/

/-- Claim C6: in Per-label mode a build failure aborts the run with no file
created for the failing label: (a) every file-create performed by the loop
belongs to a label whose entire trie build succeeded, and its path is the
label's output path; (b) a build failure on a label aborts the loop at that
label with no file operations. -/
theorem c6_no_partial_file (m : Config) (c : Container) :
    (∀ (list : List Str) (path : Str),
      FileOp.create path ∈ (outputOneFilePerList m c list).2 →
      ∃ n e w', n ∈ list ∧ getEntry c n = some e ∧
        addEntryToWriter m (createWriter m) e n = Except.ok w' ∧
        path = labelPath m n) ∧
    (∀ (name : Str) (rest : List Str) (e : Entry) (err : Str),
      getEntry c name = some e →
      addEntryToWriter m (createWriter m) e name = Except.error err →
      outputOneFilePerList m c (name :: rest) =
        (Except.error (wrapAddError name err), [])) := by
  constructor
  · intro list
    induction list with
    | nil =>
      intro path h
      simp [outputOneFilePerList] at h
    | cons name rest ih =>
      intro path h
      cases hg : getEntry c name with
      | none =>
        rw [show outputOneFilePerList m c (name :: rest) = outputOneFilePerList m c rest
          from by simp [outputOneFilePerList, hg]] at h
        rcases ih path h with ⟨n, e, w', hn, h1, h2, h3⟩
        exact ⟨n, e, w', List.mem_cons_of_mem _ hn, h1, h2, h3⟩
      | some e =>
        cases ha : addEntryToWriter m (createWriter m) e name with
        | error err =>
          rw [show (outputOneFilePerList m c (name :: rest)).2 = []
            from by simp [outputOneFilePerList, hg, ha]] at h
          simp at h
        | ok w' =>
          rw [show (outputOneFilePerList m c (name :: rest)).2 =
              FileOp.create (labelPath m name) :: FileOp.write (labelPath m name) ::
                (outputOneFilePerList m c rest).2
            from by simp [outputOneFilePerList, hg, ha]] at h
          rcases List.mem_cons.1 h with h0 | h0
          · refine ⟨name, e, w', List.mem_cons_self _ _, hg, ha, ?_⟩
            cases h0
            rfl
          · rcases List.mem_cons.1 h0 with h1 | h1
            · cases h1
            · rcases ih path h1 with ⟨n, e2, w2, hn, hh1, hh2, hh3⟩
              exact ⟨n, e2, w2, List.mem_cons_of_mem _ hn, hh1, hh2, hh3⟩
  · intro name rest e err hg ha
    simp [outputOneFilePerList, hg, ha]

/-- Per-label configuration restricted to IPv4. -/
def cfgC6 : Config where
  OutputName := "Country.mmdb".data
  OutputDir := "out".data
  Want := []
  Exclude := []
  OneFilePerList := true
  OnlyIPType := IPType.ipv4

/-- An entry named "CN" whose build succeeds. -/
def entryCN : Entry where
  name := "CN".data
  ipv4Set := Except.ok [pfxV4]
  ipv6Set := Except.ok []

/-- An entry named "US" whose build fails (IPv4 accessor error). -/
def entryUS : Entry where
  name := "US".data
  ipv4Set := Except.error "ipv4 accessor failed".data
  ipv6Set := Except.ok []

theorem c6_no_partial_file_witness :
    (∃ n e w', n ∈ ["CN".data] ∧ getEntry [entryCN, entryUS] n = some e ∧
      addEntryToWriter cfgC6 (createWriter cfgC6) e n = Except.ok w' ∧
      labelPath cfgC6 "CN".data = labelPath cfgC6 n) ∧
    outputOneFilePerList cfgC6 [entryCN, entryUS] ["US".data] =
      (Except.error (wrapAddError "US".data "ipv4 accessor failed".data), []) :=
  ⟨(c6_no_partial_file cfgC6 [entryCN, entryUS]).1 ["CN".data]
      (labelPath cfgC6 "CN".data) (List.Mem.head _),
   (c6_no_partial_file cfgC6 [entryCN, entryUS]).2 "US".data [] entryUS
      "ipv4 accessor failed".data rfl rfl⟩

/- ------------------------------------------------------------------ -/
/- C7                                                                  -/
/- ------------------------------------------------------------------ -/

/-- Whether a selected label is present in the container and its one-label
trie build (against a fresh per-label writer) succeeds. -/
def buildOk (m : Config) (c : Container) (n : Str) : Bool :=
  match getEntry c n with
  | none => false
  | some e =>
    match addEntryToWriter m (createWriter m) e n with
    | Except.ok _ => true
    | Except.error _ => false

/-- Claim C7: in Per-label mode, when every selected label is present and
builds successfully, the run succeeds and performs exactly one file
creation (and write) per selected label, in order, at the path obtained by
lowercasing the label and appending ".mmdb" inside the output directory. -/
theorem c7_per_label_files (m : Config) (c : Container) (list : List Str)
    (h : ∀ n ∈ list, buildOk m c n = true) :
    (outputOneFilePerList m c list).1 = Except.ok () ∧
    (outputOneFilePerList m c list).2 =
      list.flatMap (fun n => [FileOp.create (labelPath m n), FileOp.write (labelPath m n)]) := by
  induction list with
  | nil => exact ⟨rfl, rfl⟩
  | cons name rest ih =>
    have hh := h name (List.mem_cons_self _ _)
    cases hg : getEntry c name with
    | none => simp [buildOk, hg] at hh
    | some e =>
      cases ha : addEntryToWriter m (createWriter m) e name with
      | error err => simp [buildOk, hg, ha] at hh
      | ok w' =>
        have ihr := ih (fun n hn => h n (List.mem_cons_of_mem _ hn))
        constructor
        · rw [show (outputOneFilePerList m c (name :: rest)).1 =
              (outputOneFilePerList m c rest).1
            from by simp [outputOneFilePerList, hg, ha]]
          exact ihr.1
        · rw [show (outputOneFilePerList m c (name :: rest)).2 =
              FileOp.create (labelPath m name) :: FileOp.write (labelPath m name) ::
                (outputOneFilePerList m c rest).2
            from by simp [outputOneFilePerList, hg, ha]]
          rw [ihr.2]
          simp [List.flatMap_cons]

/-- A three-label container whose builds all succeed. -/
def contC7 : Container :=
  [entryCN, mkEntry "JP".data, mkEntry "KR".data]

theorem c7_per_label_files_witness :
    (∀ n ∈ ["CN".data, "JP".data, "KR".data], buildOk cfgC6 contC7 n = true) ∧
    (outputOneFilePerList cfgC6 contC7 ["CN".data, "JP".data, "KR".data]).1 = Except.ok () ∧
    (outputOneFilePerList cfgC6 contC7 ["CN".data, "JP".data, "KR".data]).2 =
      ["CN".data, "JP".data, "KR".data].flatMap
        (fun n => [FileOp.create (labelPath cfgC6 n), FileOp.write (labelPath cfgC6 n)]) :=
  ⟨by decide,
   (c7_per_label_files cfgC6 contC7 ["CN".data, "JP".data, "KR".data] (by decide)).1,
   (c7_per_label_files cfgC6 contC7 ["CN".data, "JP".data, "KR".data] (by decide)).2⟩

/- ------------------------------------------------------------------ -/
/- C10                                                                 -/
/- ------------------------------------------------------------------ -/

/-- Claim C10: every writer carries the fixed options DatabaseType
"GeoIP2-Country", RecordSize 28 and IncludeReservedNetworks true, and every
record inserted for a label is the fixed two-field map carrying the label as
iso_code in both country and registered_country. -/
theorem c10_fixed_options_record (m : Config) (cc : Str) :
    (createWriter m).databaseType = "GeoIP2-Country".data ∧
    (createWriter m).recordSize = 28 ∧
    (createWriter m).includeReservedNetworks = true ∧
    countryRecord cc = MMDBType.map
      [("country".data, MMDBType.map [("iso_code".data, MMDBType.str cc)]),
       ("registered_country".data, MMDBType.map [("iso_code".data, MMDBType.str cc)])] ∧
    (∀ w e w', addEntryToWriter m w e cc = Except.ok w' →
      ∀ pr ∈ w'.entries, pr ∈ w.entries ∨ pr.2 = countryRecord cc) := by
  refine ⟨rfl, rfl, rfl, rfl, ?_⟩
  intro w e w' hadd pr hpr
  unfold addEntryToWriter at hadd
  cases hs : selectPrefixes m.OnlyIPType e with
  | error err => rw [hs] at hadd; cases hadd
  | ok ps =>
    rw [hs] at hadd
    rcases insertAll_mem (countryRecord cc) ps w w' hadd pr hpr with h1 | h2
    · exact Or.inl h1
    · exact Or.inr h2.2

theorem c10_fixed_options_record_witness :
    (createWriter cfgV4).recordSize = 28 ∧
    addEntryToWriter cfgV4 (createWriter cfgV4) entryBoth "XX".data = Except.ok treeC5 ∧
    ((pfxV4, countryRecord "XX".data) ∈ (createWriter cfgV4).entries ∨
      (pfxV4, countryRecord "XX".data).2 = countryRecord "XX".data) :=
  ⟨rfl, rfl,
   (c10_fixed_options_record cfgV4 "XX".data).2.2.2.2 (createWriter cfgV4) entryBoth
     treeC5 rfl (pfxV4, countryRecord "XX".data) (List.Mem.head _)⟩

/- ------------------------------------------------------------------ -/
/- C3                                                                  -/
/- ------------------------------------------------------------------ -/

/-- Claim C3: inserting 10.0.0.0/8 → A and then 10.1.0.0/16 → B into the
trie yields a trie in which every 32-bit address inside 10.1.0.0/16 (i.e.
whose top 16 bits are those of 10.1.0.0/16) resolves to B, and every other
address inside 10.0.0.0/8 resolves to A — last write wins over the
overlapped region. -/
theorem c3_overlap_precedence {α : Type} (a : List Bool) (A B : α)
    (h32 : a.length = 32) :
    (a.take 16 = toBits 16 2561 →
      trieLookup (trieInsert (trieInsert Trie.empty (toBits 8 10) A) (toBits 16 2561) B) a
        = some B) ∧
    (a.take 8 = toBits 8 10 → a.take 16 ≠ toBits 16 2561 →
      trieLookup (trieInsert (trieInsert Trie.empty (toBits 8 10) A) (toBits 16 2561) B) a
        = some A) := by
  constructor
  · intro h16
    have ha : a = toBits 16 2561 ++ a.drop 16 := by
      conv_lhs => rw [← List.take_append_drop 16 a]
      rw [h16]
    rw [ha]
    exact trieLookup_insert_inside B (toBits 16 2561) _ (a.drop 16)
  · intro h8 hne
    have hlen16 : (toBits 16 2561).length = 16 := by decide
    rw [trieLookup_insert_outside B (toBits 16 2561) a _
      (by rw [hlen16, h32]; exact by norm_num)
      (by rw [hlen16]; exact hne)]
    have ha : a = toBits 8 10 ++ a.drop 8 := by
      conv_lhs => rw [← List.take_append_drop 8 a]
      rw [h8]
    rw [ha]
    exact trieLookup_insert_inside A (toBits 8 10) _ (a.drop 8)

theorem c3_overlap_precedence_witness :
    ((toBits 32 167837696).length = 32 ∧
     (toBits 32 167837696).take 16 = toBits 16 2561) ∧
    ((toBits 32 167903232).length = 32 ∧
     (toBits 32 167903232).take 8 = toBits 8 10 ∧
     (toBits 32 167903232).take 16 ≠ toBits 16 2561) ∧
    trieLookup (trieInsert (trieInsert Trie.empty (toBits 8 10) 0) (toBits 16 2561) 1)
      (toBits 32 167837696) = some 1 ∧
    trieLookup (trieInsert (trieInsert Trie.empty (toBits 8 10) 0) (toBits 16 2561) 1)
      (toBits 32 167903232) = some 0 :=
  ⟨⟨by decide, by decide⟩, ⟨by decide, by decide, by decide⟩,
   (c3_overlap_precedence (toBits 32 167837696) 0 1 (by decide)).1 (by decide),
   (c3_overlap_precedence (toBits 32 167903232) 0 1 (by decide)).2 (by decide) (by decide)⟩

end GeoIP
